import Mathlib

/-!
Verification of the esdp2 notebooks (multiprocessing demos).

The repository consists of two educational notebooks:
* `03_multiprocessing_Pool` (the unnamed notebook): hashes a word list with
  SHA-512 through `multiprocessing.Pool.map`, and shows a `map_async`
  example with an error callback;
* `02_parallel_IO_with_Pool`: builds a CDS/MARS retrieval request for ERA5
  data from a variable-to-grib-code mapping.

This file shallowly embeds the notebook code and the library primitives it
invokes (hashlib's sha512, `str.encode('utf-8')`, `file.readlines`,
`Pool.map` chunking, `Pool.map_async` with `error_callback`), and proves
the spec's claims about them.  Machine words are `Nat` values reduced
modulo `2 ^ 64`; bytes are `Nat` values below 256.
-/

namespace ESDP2

/-! ### SHA-512 (FIPS 180-4), the primitive `hashlib.sha512` invokes -/

/-- 64-bit modulus. -/
def w64 : Nat := 2 ^ 64

/-- Addition modulo 2^64. -/
def add64 (a b : Nat) : Nat := (a + b) % w64

/-- Right-rotation of a 64-bit word by `n` places. -/
def rotr (n x : Nat) : Nat := ((x >>> n) ||| (x <<< (64 - n))) % w64

/-- Bitwise complement of a 64-bit word. -/
def not64 (x : Nat) : Nat := x ^^^ (w64 - 1)

/-- FIPS 180-4 `Ch(x,y,z)`. -/
def ch (x y z : Nat) : Nat := (x &&& y) ^^^ (not64 x &&& z)

/-- FIPS 180-4 `Maj(x,y,z)`. -/
def maj (x y z : Nat) : Nat := (x &&& y) ^^^ (x &&& z) ^^^ (y &&& z)

/-- FIPS 180-4 `Σ0` for SHA-512. -/
def bigSigma0 (x : Nat) : Nat := rotr 28 x ^^^ rotr 34 x ^^^ rotr 39 x

/-- FIPS 180-4 `Σ1` for SHA-512. -/
def bigSigma1 (x : Nat) : Nat := rotr 14 x ^^^ rotr 18 x ^^^ rotr 41 x

/-- FIPS 180-4 `σ0` for SHA-512. -/
def smallSigma0 (x : Nat) : Nat := rotr 1 x ^^^ rotr 8 x ^^^ (x >>> 7)

/-- FIPS 180-4 `σ1` for SHA-512. -/
def smallSigma1 (x : Nat) : Nat := rotr 19 x ^^^ rotr 61 x ^^^ (x >>> 6)

/-- The 80 SHA-512 round constants of FIPS 180-4 (the first 64 bits of the
fractional parts of the cube roots of the first 80 primes), in decimal. -/
def K : List Nat := [
  4794697086780616226, 8158064640168781261, 13096744586834688815,
  16840607885511220156, 4131703408338449720, 6480981068601479193,
  10538285296894168987, 12329834152419229976, 15566598209576043074,
  1334009975649890238, 2608012711638119052, 6128411473006802146,
  8268148722764581231, 9286055187155687089, 11230858885718282805,
  13951009754708518548, 16472876342353939154, 17275323862435702243,
  1135362057144423861, 2597628984639134821, 3308224258029322869,
  5365058923640841347, 6679025012923562964, 8573033837759648693,
  10970295158949994411, 12119686244451234320, 12683024718118986047,
  13788192230050041572, 14330467153632333762, 15395433587784984357,
  489312712824947311, 1452737877330783856, 2861767655752347644,
  3322285676063803686, 5560940570517711597, 5996557281743188959,
  7280758554555802590, 8532644243296465576, 9350256976987008742,
  10552545826968843579, 11727347734174303076, 12113106623233404929,
  14000437183269869457, 14369950271660146224, 15101387698204529176,
  15463397548674623760, 17586052441742319658, 1182934255886127544,
  1847814050463011016, 2177327727835720531, 2830643537854262169,
  3796741975233480872, 4115178125766777443, 5681478168544905931,
  6601373596472566643, 7507060721942968483, 8399075790359081724,
  8693463985226723168, 9568029438360202098, 10144078919501101548,
  10430055236837252648, 11840083180663258601, 13761210420658862357,
  14299343276471374635, 14566680578165727644, 15097957966210449927,
  16922976911328602910, 17689382322260857208, 500013540394364858,
  748580250866718886, 1242879168328830382, 1977374033974150939,
  2944078676154940804, 3659926193048069267, 4368137639120453308,
  4836135668995329356, 5532061633213252278, 6448918945643986474,
  6902733635092675308, 7801388544844847127]

/-- The eight 64-bit working variables of the SHA-512 state. -/
structure Hash8 where
  a : Nat
  b : Nat
  c : Nat
  d : Nat
  e : Nat
  f : Nat
  g : Nat
  h : Nat
deriving Repr, DecidableEq

/-- SHA-512 initial hash value (FIPS 180-4 §5.3.5), in decimal. -/
def H0 : Hash8 :=
  ⟨7640891576956012808, 13503953896175478587, 4354685564936845355,
   11912009170470909681, 5840696475078001361, 11170449401992604703,
   2270897969802886507, 6620516959819538809⟩

/-- One SHA-512 round: absorb a constant/schedule-word pair into the state. -/
def roundStep (st : Hash8) (kw : Nat × Nat) : Hash8 :=
  let t1 := (st.h + bigSigma1 st.e + ch st.e st.f st.g + kw.1 + kw.2) % w64
  let t2 := (bigSigma0 st.a + maj st.a st.b st.c) % w64
  ⟨(t1 + t2) % w64, st.a, st.b, st.c, add64 st.d t1, st.e, st.f, st.g⟩

/-- Append the next message-schedule word (`W[t]` for `t ≥ 16`) to `ws`. -/
def nextScheduleWord (ws : List Nat) : Nat :=
  let k := ws.length
  (smallSigma1 (ws.getD (k - 2) 0) + ws.getD (k - 7) 0 +
   smallSigma0 (ws.getD (k - 15) 0) + ws.getD (k - 16) 0) % w64

/-- Extend a 16-word block by `n` further schedule words. -/
def extendSchedule : List Nat → Nat → List Nat
  | ws, 0 => ws
  | ws, n + 1 => extendSchedule (ws ++ [nextScheduleWord ws]) n

/-- SHA-512 compression function on one 16-word block. -/
def compress (st : Hash8) (block : List Nat) : Hash8 :=
  let sched := extendSchedule block 64
  let t := (K.zip sched).foldl roundStep st
  ⟨add64 st.a t.a, add64 st.b t.b, add64 st.c t.c, add64 st.d t.d,
   add64 st.e t.e, add64 st.f t.f, add64 st.g t.g, add64 st.h t.h⟩

/-- Big-endian interpretation of a byte list as a single `Nat`. -/
def bytesToWord (bs : List Nat) : Nat := bs.foldl (fun acc b => acc * 256 + b) 0

/-- Fuel-driven chunking loop: split `l` into pieces of `n` elements. -/
def chunkGo (n : Nat) : Nat → List α → List (List α)
  | 0, _ => []
  | _, [] => []
  | fuel + 1, l => l.take n :: chunkGo n fuel (l.drop n)

/-- Split a list into consecutive chunks of `n` elements (last one shorter). -/
def chunkList (n : Nat) (l : List α) : List (List α) := chunkGo n l.length l

/-- SHA-512 padding: append `0x80`, zeros to 112 mod 128, then the 128-bit
big-endian message bit length. -/
def pad (msg : List Nat) : List Nat :=
  let zeros := (240 - (msg.length + 1) % 128) % 128
  msg ++ 0x80 :: List.replicate zeros 0 ++
    (List.range 16).map (fun i => ((8 * msg.length) >>> (8 * (15 - i))) % 256)

/-- Run the SHA-512 compression over all 128-byte blocks of the padded
message. -/
def sha512Core (msg : List Nat) : Hash8 :=
  ((chunkList 128 (pad msg)).map (fun blk => (chunkList 8 blk).map bytesToWord)).foldl
    compress H0

/-- The big-endian bytes of one 64-bit word. -/
def wordBytes (x : Nat) : List Nat :=
  (List.range 8).map (fun i => (x >>> (8 * (7 - i))) % 256)

/-- The eight state words, in output order. -/
def stateWords (st : Hash8) : List Nat :=
  [st.a, st.b, st.c, st.d, st.e, st.f, st.g, st.h]

/-- SHA-512 digest of a byte string: 64 bytes. -/
def sha512digest (msg : List Nat) : List Nat :=
  (stateWords (sha512Core msg)).flatMap wordBytes

/-- Lowercase hexadecimal digit for `n < 16` (as `bytes.hex` / `hexdigest`
render it). -/
def hexChar (n : Nat) : Char :=
  if n < 10 then Char.ofNat (48 + n) else Char.ofNat (87 + n)

/-- Two lowercase hex digits of one byte. -/
def byteToHex (b : Nat) : List Char := [hexChar (b / 16), hexChar (b % 16)]

/-- Render a byte string in lowercase hexadecimal. -/
def hexOfBytes (bs : List Nat) : String := String.mk (bs.flatMap byteToHex)

/-! ### The hashlib hash-object interface used by `hash_word`

`hashlib.sha512()` returns a fresh hash object; `update` feeds it bytes;
`hexdigest` returns the lowercase hex digest of everything fed so far.  The
observable behaviour of the object is fully described by the bytes it has
absorbed. -/

/-- A hashlib SHA-512 hash object: the bytes absorbed so far. -/
structure HashObject where
  buffer : List Nat
deriving Repr, DecidableEq

/-- `hashlib.sha512()` — a fresh hash object. -/
def sha512 : HashObject := ⟨[]⟩

/-- `hash_object.update(byte_data)`. -/
def HashObject.update (ho : HashObject) (data : List Nat) : HashObject :=
  ⟨ho.buffer ++ data⟩

/-- `hash_object.hexdigest()`. -/
def HashObject.hexdigest (ho : HashObject) : String :=
  hexOfBytes (sha512digest ho.buffer)

/-- `word.encode('utf-8')` — the UTF-8 bytes of a Python string.  This is
the byte list underlying `String.toUTF8`, character by character. -/
def utf8Encode (word : String) : List Nat :=
  (word.data.flatMap String.utf8EncodeChar).map (fun b => b.toNat)

/-- The notebook's `hash_word`, line for line:
```
def hash_word(word):
    hash_object = sha512()
    byte_data = word.encode('utf-8')
    hash_object.update(byte_data)
    return hash_object.hexdigest()
``` -/
def hash_word (word : String) : String :=
  let hash_object := sha512
  let byte_data := utf8Encode word
  let hash_object := hash_object.update byte_data
  hash_object.hexdigest

/-! ### `multiprocessing.Pool.map`

`Pool.map(func, iterable, chunksize)` splits the iterable into consecutive
chunks of `chunksize` items, has the workers apply `list(map(func, chunk))`
to each chunk, and reassembles the per-chunk result lists by chunk index,
so the output order matches the input order regardless of which worker
finishes first. -/

/-- The result list of `Pool.map(f, l, chunksize)`: chunks mapped and
rejoined in chunk order. -/
def poolMap (chunksize : Nat) (f : α → β) (l : List α) : List β :=
  ((chunkList chunksize l).map (fun c => c.map f)).flatten

/-- The serial cell: `known_words = {hash_word(w) for w in words}`. -/
def known_words_serial (words : List String) : Finset String :=
  (words.map hash_word).toFinset

/-- The parallel cell: `known_words = set(p.map(hash_word, words))`. -/
def known_words_parallel (chunksize : Nat) (words : List String) : Finset String :=
  (poolMap chunksize hash_word words).toFinset

/-! ### `file.readlines` and the word-list pipeline

`words = f.readlines()` splits the file content into lines, each line
keeping its terminating newline character; a final fragment without a
newline is kept as-is.  The notebook then hashes `words` unchanged. -/

/-- Python `readlines` on a character sequence. -/
def readlinesChars : List Char → List (List Char)
  | [] => []
  | c :: cs =>
    if c = '\n' then ['\n'] :: readlinesChars cs
    else
      match readlinesChars cs with
      | [] => [[c]]
      | l :: ls => (c :: l) :: ls

/-- The notebook's `words = f.readlines()` for a file with content
`content`. -/
def readlines (content : List Char) : List String :=
  (readlinesChars content).map String.mk

/-- The hashing pipeline of the notebook: `p.map(hash_word, words)` applied
to the raw lines of the file. -/
def pipelineHashes (chunksize : Nat) (content : List Char) : List String :=
  poolMap chunksize hash_word (readlines content)

/-! ### The `map_async` example

```
def task(value):
    if value == 42 or value == 13:
        raise ValueError(f'{value} is an impossible value!')
    random_value = random()
    sleep(random_value)
    result = (value, random_value)
    print(f'>task({result[0]}):{result[1]:.3f}', end='\n', flush=True)

def galactic_error(value):
    print(f'***{value}***')

with Pool(processes=8) as pool:
    _ = pool.map_async(task, range(60), chunksize=16, error_callback=galactic_error)
```

The stream of `random()` draws is modelled as a function `g : ℕ → ℚ`
together with a call counter; `print` output is collected as data.  A task
either raises (returns `Except.error` with the `ValueError` message) or
completes, having printed its `(value, random_value)` tuple once, returning
`None`, and having advanced the random counter by one. -/

/-- What one completed task leaves behind: its printed tuples and the value
it returns to the pool (`task` has no `return`, hence `none`). -/
structure TaskOutput where
  printed : List (Nat × ℚ)
  ret : Option (Nat × ℚ)
deriving DecidableEq

/-- The message of the `ValueError` raised by `task`. -/
def valueErrorMsg (value : Nat) : String :=
  toString value ++ " is an impossible value!"

/-- The notebook's `task`, over the random stream `g` at counter `k`. -/
def task (g : Nat → ℚ) (k : Nat) (value : Nat) : Except String (TaskOutput × Nat) :=
  if value = 42 ∨ value = 13 then
    Except.error (valueErrorMsg value)
  else
    let random_value := g k
    let result := (value, random_value)
    Except.ok (⟨[result], none⟩, k + 1)

/-- The line `galactic_error` prints for an error `value`. -/
def galactic_error (value : String) : String := "***" ++ value ++ "***"

/-- A worker runs one chunk with `mapstar`: `list(map(task, chunk))`.  The
first exception aborts the chunk and becomes the chunk's result. -/
def runChunk (g : Nat → ℚ) : Nat → List Nat → Except String (List TaskOutput) × Nat
  | k, [] => (Except.ok [], k)
  | k, v :: vs =>
    match task g k v with
    | Except.error e => (Except.error e, k)
    | Except.ok (o, k₁) =>
      match runChunk g k₁ vs with
      | (Except.ok os, k₂) => (Except.ok (o :: os), k₂)
      | (Except.error e, k₂) => (Except.error e, k₂)

/-- Run all chunks, threading the random counter. -/
def runChunks (g : Nat → ℚ) : Nat → List (List Nat) → List (Except String (List TaskOutput))
  | _, [] => []
  | k, c :: cs =>
    match runChunk g k c with
    | (r, k₁) => r :: runChunks g k₁ cs

/-- The per-chunk results of
`pool.map_async(task, inputs, chunksize, error_callback=galactic_error)`. -/
def map_async (g : Nat → ℚ) (chunksize : Nat) (inputs : List Nat) :
    List (Except String (List TaskOutput)) :=
  runChunks g 0 (chunkList chunksize inputs)

/-- The exceptions raised during the run, in chunk order. -/
def raisedErrors (g : Nat → ℚ) (chunksize : Nat) (inputs : List Nat) : List String :=
  (map_async g chunksize inputs).filterMap
    (fun r => match r with | Except.error e => some e | Except.ok _ => none)

/-- The lines printed by the error callback: `map_async` calls
`error_callback` once, with the exception that made the map fail, and not
at all when no task raised. -/
def errorCallbackCalls (g : Nat → ℚ) (chunksize : Nat) (inputs : List Nat) : List String :=
  match (raisedErrors g chunksize inputs).head? with
  | none => []
  | some e => [galactic_error e]

/-! ### The ERA5 retrieval notebook

```
vars = {'temperature': 130,
        'specific humidity': 111,
        'surface pressure': 111,
        '10-m wind speed': 111}

c.retrieve("reanalysis-era5-complete", {
    "class": "ea",
    "date": f"{firstdate}/to/{lastdate}",
    ...
    "param": f"{vars[thisvar]}",
    ...
    "format": "netcdf"
}, f"era5_{thisvar}_{firstdate}_{lastdate}.nc")
``` -/

/-- The notebook's `vars` dict: variable name to grib parameter code. -/
def vars : List (String × Nat) :=
  [("temperature", 130),
   ("specific humidity", 111),
   ("surface pressure", 111),
   ("10-m wind speed", 111)]

/-- `vars[name]` — `some code`, or `none` where Python raises `KeyError`. -/
def varsLookup (name : String) : Option Nat :=
  (vars.find? (fun p => p.1 == name)).map (fun p => p.2)

/-- One call to `c.retrieve(dataset, request, target)`. -/
structure RetrieveCall where
  dataset : String
  request : List (String × String)
  target : String
deriving DecidableEq

/-- The retrieval call the notebook submits for a variable and date range;
`none` when the variable is not in `vars` (Python raises `KeyError` before
any request is made). -/
def makeRetrieveCall (thisvar firstdate lastdate : String) : Option RetrieveCall :=
  match varsLookup thisvar with
  | none => none
  | some code => some
      { dataset := "reanalysis-era5-complete",
        request :=
          [("class", "ea"),
           ("date", firstdate ++ "/to/" ++ lastdate),
           ("expver", "1"),
           ("levelist", "137"),
           ("levtype", "ml"),
           ("param", toString code),
           ("step", "0"),
           ("stream", "oper"),
           ("time", "09:00:00/21:00:00"),
           ("type", "4v"),
           ("format", "netcdf")],
        target := "era5_" ++ thisvar ++ "_" ++ firstdate ++ "_" ++ lastdate ++ ".nc" }

/-- Look a key up in a request dict. -/
def reqField (req : List (String × String)) (key : String) : Option String :=
  (req.find? (fun p => p.1 == key)).map (fun p => p.2)

/-- The sixteen characters `hexdigest` may emit. -/
def hexAlphabet : List Char := "0123456789abcdef".data

/-- A concrete random stream, used to instantiate witnesses. -/
def constRandom : Nat → ℚ := fun _ => 0

/-! ### Lemmas about the embedded primitives -/

/-- `hash_word` is the one-shot SHA-512 hex digest of the UTF-8 bytes. -/
lemma hash_word_eq (word : String) :
    hash_word word = hexOfBytes (sha512digest (utf8Encode word)) := by
  simp [hash_word, HashObject.update, HashObject.hexdigest, sha512]

set_option maxRecDepth 100000 in
/-- Known-answer test for the SHA-512 embedding: the digest of `"abc"`
agrees with the FIPS 180-4 reference value (and with hashlib). -/
theorem sha512_known_answer_abc :
    hash_word "abc" =
      "ddaf35a193617abacc417349ae20413112e6fa4e89a97ea20a9eeee64b55d39a2192992a274fc1a836ba3c23a3feebbd454d4423643ce80e2a9ac94fa54ca49f" := by
  decide

/-- Chunks of `l` concatenate back to `l` when the chunk size is positive. -/
lemma chunkGo_flatten {α : Type} (n : Nat) (hn : 0 < n) :
    ∀ (fuel : Nat) (l : List α), l.length ≤ fuel → (chunkGo n fuel l).flatten = l := by
  intro fuel
  induction fuel with
  | zero =>
    intro l hl
    have : l = [] := by cases l <;> simp_all
    subst this
    rfl
  | succ fuel ih =>
    intro l hl
    cases l with
    | nil => rfl
    | cons c cs =>
      have hd : ((c :: cs).drop n).length ≤ fuel := by
        simp only [List.length_drop]
        have : (c :: cs).length ≤ fuel + 1 := hl
        have h1 : 1 ≤ n := hn
        simp only [List.length_cons] at this ⊢
        omega
      calc (chunkGo n (fuel + 1) (c :: cs)).flatten
          = (c :: cs).take n ++ (chunkGo n fuel ((c :: cs).drop n)).flatten := by
            simp [chunkGo]
        _ = (c :: cs).take n ++ (c :: cs).drop n := by rw [ih _ hd]
        _ = c :: cs := List.take_append_drop n (c :: cs)

/-- `Pool.map` with a positive chunk size is a plain `List.map`. -/
lemma poolMap_eq_map {α β : Type} (f : α → β) (l : List α) (n : Nat) (hn : 0 < n) :
    poolMap n f l = l.map f := by
  rw [poolMap, ← List.map_flatten, chunkList, chunkGo_flatten n hn l.length l (le_refl _)]

/-- Every element of a chunk comes from the chunked list. -/
lemma chunkGo_subset {α : Type} (n : Nat) :
    ∀ (fuel : Nat) (l c : List α), c ∈ chunkGo n fuel l → ∀ v ∈ c, v ∈ l := by
  intro fuel
  induction fuel with
  | zero => intro l c hc; simp [chunkGo] at hc
  | succ fuel ih =>
    intro l c hc v hv
    cases l with
    | nil => simp [chunkGo] at hc
    | cons a as =>
      rcases List.mem_cons.mp hc with rfl | hc₂
      · exact List.take_subset _ _ hv
      · exact List.drop_subset _ _ (ih _ _ hc₂ v hv)

/-- Hex rendering doubles the byte count. -/
lemma length_flatMap_byteToHex (bs : List Nat) :
    (bs.flatMap byteToHex).length = 2 * bs.length := by
  induction bs with
  | nil => rfl
  | cons b bs ih =>
    simp only [List.flatMap_cons, List.length_append, ih, byteToHex, List.length_cons,
      List.length_nil, List.length_cons]
    omega

/-- The SHA-512 digest always has 64 bytes. -/
lemma sha512digest_length (msg : List Nat) : (sha512digest msg).length = 64 := by
  simp [sha512digest, stateWords, wordBytes, List.length_flatMap]

/-- Every digest byte is below 256. -/
lemma sha512digest_lt (msg : List Nat) : ∀ b ∈ sha512digest msg, b < 256 := by
  intro b hb
  rw [sha512digest, List.mem_flatMap] at hb
  obtain ⟨x, -, hx⟩ := hb
  simp only [wordBytes, List.mem_map, List.mem_range] at hx
  obtain ⟨i, -, rfl⟩ := hx
  exact Nat.mod_lt _ (by norm_num)

/-- `hexChar` of a value below 16 is a lowercase hex character. -/
lemma hexChar_mem (n : Nat) (h : n < 16) : hexChar n ∈ hexAlphabet := by
  interval_cases n <;> decide

/-! ### The claims -/

/-- C1: for every word, the notebook's `hash_word` returns the SHA-512
digest of the word's UTF-8 encoding rendered as a hexadecimal string:
`hash_word(w) = hexdigest(SHA512(utf8_encode(w)))`. -/
theorem hash_word_is_sha512_hexdigest (word : String) :
    hash_word word = hexOfBytes (sha512digest (utf8Encode word)) :=
  hash_word_eq word

/-- C8: for every string input (empty and non-ASCII included) `hash_word`
returns — it is a total function — and its result has exactly 128
characters, each a lowercase hexadecimal digit. -/
theorem hash_word_hex_shape (word : String) :
    (hash_word word).length = 128 ∧ ∀ c ∈ (hash_word word).data, c ∈ hexAlphabet := by
  rw [hash_word_eq]
  constructor
  · show ((sha512digest (utf8Encode word)).flatMap byteToHex).length = 128
    rw [length_flatMap_byteToHex, sha512digest_length]
  · intro c hc
    have hc₂ : c ∈ (sha512digest (utf8Encode word)).flatMap byteToHex := hc
    rw [List.mem_flatMap] at hc₂
    obtain ⟨b, hb, hcb⟩ := hc₂
    have hblt : b < 256 := sha512digest_lt _ b hb
    simp only [byteToHex, List.mem_cons, List.not_mem_nil, or_false] at hcb
    rcases hcb with rfl | rfl
    · exact hexChar_mem _ (Nat.div_lt_of_lt_mul (by omega))
    · exact hexChar_mem _ (Nat.mod_lt _ (by norm_num))

/-- C7: `hash_word` keeps no state across calls: whenever the same word
occurs at any positions of any two call sequences, the digests produced at
those positions agree — the result depends only on the argument. -/
theorem hash_word_stateless (ws₁ ws₂ : List String) (i j : Nat) (w : String)
    (h₁ : ws₁[i]? = some w) (h₂ : ws₂[j]? = some w) :
    (ws₁.map hash_word)[i]? = (ws₂.map hash_word)[j]? := by
  simp [List.getElem?_map, h₁, h₂]

/-- Witness for C7 at concrete call sequences sharing the word `"cd"`. -/
theorem hash_word_stateless_witness :
    (["ab", "cd"][1]? = some "cd") ∧ (["cd", "ab", "xy"][0]? = some "cd") ∧
    (["ab", "cd"].map hash_word)[1]? = (["cd", "ab", "xy"].map hash_word)[0]? :=
  ⟨rfl, rfl, hash_word_stateless ["ab", "cd"] ["cd", "ab", "xy"] 1 0 "cd" rfl rfl⟩

/-- C3: the parallel computation refines the serial one: for every word
list and positive chunk size, `p.map(hash_word, words)` is the plain map of
`hash_word` over the list, and `set(p.map(hash_word, words))` equals the
serial comprehension `{hash_word(w) for w in words}`. -/
theorem pool_map_refines_serial (words : List String) (chunksize : Nat)
    (h : 0 < chunksize) :
    poolMap chunksize hash_word words = words.map hash_word ∧
    known_words_parallel chunksize words = known_words_serial words := by
  have hmap := poolMap_eq_map hash_word words chunksize h
  exact ⟨hmap, by simp [known_words_parallel, known_words_serial, hmap]⟩

/-- Witness for C3 on a three-word list with chunk size 2. -/
theorem pool_map_refines_serial_witness :
    0 < 2 ∧
    (poolMap 2 hash_word ["a", "b", "c"] = ["a", "b", "c"].map hash_word ∧
     known_words_parallel 2 ["a", "b", "c"] = known_words_serial ["a", "b", "c"]) :=
  ⟨by decide, pool_map_refines_serial ["a", "b", "c"] 2 (by decide)⟩

/-- The lines produced by `readlines` concatenate back to the file content:
nothing is trimmed or normalized. -/
lemma readlinesChars_flatten (cs : List Char) : (readlinesChars cs).flatten = cs := by
  induction cs with
  | nil => rfl
  | cons c cs ih =>
    by_cases hc : c = '\n'
    · subst hc
      simp only [readlinesChars, if_pos rfl, List.flatten_cons]
      simp [ih]
    · simp only [readlinesChars, if_neg hc]
      cases h : readlinesChars cs with
      | nil =>
        rw [h] at ih
        simp only [List.flatten_nil] at ih
        simp [← ih]
      | cons l ls =>
        rw [h] at ih
        simp only [List.flatten_cons] at ih ⊢
        simp [ih]

/-- Every line except possibly the last keeps its terminating newline. -/
lemma readlinesChars_newline (cs : List Char) :
    ∀ l ∈ (readlinesChars cs).dropLast, l.getLast? = some '\n' := by
  induction cs with
  | nil => intro l hl; simp [readlinesChars] at hl
  | cons c cs ih =>
    intro l hl
    by_cases hc : c = '\n'
    · subst hc
      have hstep : readlinesChars ('\n' :: cs) = ['\n'] :: readlinesChars cs := rfl
      rw [hstep] at hl
      cases h : readlinesChars cs with
      | nil => rw [h] at hl; simp at hl
      | cons m ms =>
        rw [h, List.dropLast_cons_of_ne_nil (by simp)] at hl
        rcases List.mem_cons.mp hl with rfl | hl₂
        · rfl
        · exact ih l (by rw [h]; exact hl₂)
    · simp only [readlinesChars, if_neg hc] at hl
      cases h : readlinesChars cs with
      | nil => rw [h] at hl; simp at hl
      | cons m ms =>
        rw [h] at hl
        cases ms with
        | nil => simp at hl
        | cons m₂ ms₂ =>
          rw [List.dropLast_cons_of_ne_nil (by simp)] at hl
          rcases List.mem_cons.mp hl with rfl | hl₂
          · have hm : m.getLast? = some '\n' := by
              apply ih
              rw [h, List.dropLast_cons_of_ne_nil (by simp)]
              exact List.mem_cons_self _ _
            cases m with
            | nil => simp at hm
            | cons d ds => rw [List.getLast?_cons_cons]; exact hm
          · apply ih
            rw [h, List.dropLast_cons_of_ne_nil (by simp)]
            exact List.mem_cons_of_mem _ hl₂

/-- C4: the word file is consumed as-is as newline-delimited entries.  For
every file content and positive chunk size, the strings handed to
`hash_word` are exactly the lines `readlines` returns (the pipeline is a
plain map of `hash_word` over them), those lines concatenate back to the
raw content character for character (no trimming or normalization), and
every line except possibly the last still ends with its newline. -/
theorem readlines_pipeline_raw (content : List Char) (chunksize : Nat)
    (h : 0 < chunksize) :
    pipelineHashes chunksize content = (readlines content).map hash_word ∧
    ((readlines content).map String.data).flatten = content ∧
    ∀ l ∈ (readlinesChars content).dropLast, l.getLast? = some '\n' := by
  refine ⟨poolMap_eq_map _ _ _ h, ?_, readlinesChars_newline content⟩
  rw [readlines, List.map_map]
  have hcomp : (String.data ∘ String.mk) = (id : List Char → List Char) :=
    funext (fun _ => rfl)
  rw [hcomp, List.map_id, readlinesChars_flatten]

/-- Witness for C4 on the content `"a\nb"` with chunk size 1. -/
theorem readlines_pipeline_raw_witness :
    0 < 1 ∧
    (pipelineHashes 1 ['a', '\n', 'b'] = (readlines ['a', '\n', 'b']).map hash_word ∧
     ((readlines ['a', '\n', 'b']).map String.data).flatten = ['a', '\n', 'b'] ∧
     ∀ l ∈ (readlinesChars ['a', '\n', 'b']).dropLast, l.getLast? = some '\n') :=
  ⟨by decide, readlines_pipeline_raw ['a', '\n', 'b'] 1 (by decide)⟩

/-- `task` raises exactly on the sentinel values 42 and 13. -/
lemma task_error_iff (g : Nat → ℚ) (k v : Nat) :
    (∃ e, task g k v = Except.error e) ↔ (v = 13 ∨ v = 42) := by
  constructor
  · rintro ⟨e, he⟩
    by_contra hv
    push_neg at hv
    have hcond : ¬(v = 42 ∨ v = 13) := by tauto
    simp [task, hcond] at he
  · rintro (rfl | rfl)
    · exact ⟨valueErrorMsg 13, by simp [task]⟩
    · exact ⟨valueErrorMsg 42, by simp [task]⟩

/-- A chunk containing no sentinel value completes without an exception. -/
lemma runChunk_ok (g : Nat → ℚ) :
    ∀ (c : List Nat) (k : Nat), (∀ v ∈ c, ¬(v = 42 ∨ v = 13)) →
      ∃ os k₂, runChunk g k c = (Except.ok os, k₂) := by
  intro c
  induction c with
  | nil => exact fun k _ => ⟨[], k, rfl⟩
  | cons v vs ih =>
    intro k hc
    have hv : ¬(v = 42 ∨ v = 13) := hc v (List.mem_cons_self _ _)
    have hvs : ∀ u ∈ vs, ¬(u = 42 ∨ u = 13) :=
      fun u hu => hc u (List.mem_cons_of_mem _ hu)
    obtain ⟨os, k₂, hrec⟩ := ih (k + 1) hvs
    exact ⟨⟨[(v, g k)], none⟩ :: os, k₂, by simp [runChunk, task, hv, hrec]⟩

/-- A chunk containing a sentinel value ends in an exception. -/
lemma runChunk_error (g : Nat → ℚ) :
    ∀ (c : List Nat) (k : Nat), (∃ v ∈ c, v = 42 ∨ v = 13) →
      ∃ e k₂, runChunk g k c = (Except.error e, k₂) := by
  intro c
  induction c with
  | nil =>
    rintro k ⟨v, hv, -⟩
    simp at hv
  | cons v vs ih =>
    intro k hex
    by_cases hv : v = 42 ∨ v = 13
    · exact ⟨valueErrorMsg v, k, by simp [runChunk, task, hv]⟩
    · obtain ⟨u, hu, hsent⟩ := hex
      rcases List.mem_cons.mp hu with rfl | hu₂
      · exact absurd hsent hv
      · obtain ⟨e, k₂, hrec⟩ := ih (k + 1) ⟨u, hu₂, hsent⟩
        exact ⟨e, k₂, by simp [runChunk, task, hv, hrec]⟩

/-- If no chunk contains a sentinel value, every chunk result is a success. -/
lemma runChunks_all_ok (g : Nat → ℚ) :
    ∀ (cs : List (List Nat)) (k : Nat),
      (∀ c ∈ cs, ∀ v ∈ c, ¬(v = 42 ∨ v = 13)) →
      ∀ r ∈ runChunks g k cs, ∃ os, r = Except.ok os := by
  intro cs
  induction cs with
  | nil => intro k _ r hr; simp [runChunks] at hr
  | cons c cs ih =>
    intro k hall r hr
    obtain ⟨os, k₂, hc⟩ := runChunk_ok g c k (hall c (List.mem_cons_self _ _))
    rw [show runChunks g k (c :: cs) =
          (runChunk g k c).1 :: runChunks g (runChunk g k c).2 cs from rfl, hc] at hr
    rcases List.mem_cons.mp hr with rfl | hr₂
    · exact ⟨os, rfl⟩
    · exact ih k₂ (fun d hd => hall d (List.mem_cons_of_mem _ hd)) r hr₂

/-- If some chunk contains a sentinel value, some chunk result is an
exception. -/
lemma runChunks_has_error (g : Nat → ℚ) :
    ∀ (cs : List (List Nat)) (k : Nat),
      (∃ c ∈ cs, ∃ v ∈ c, v = 42 ∨ v = 13) →
      ∃ e, Except.error e ∈ runChunks g k cs := by
  intro cs
  induction cs with
  | nil =>
    rintro k ⟨c, hc, -⟩
    simp at hc
  | cons c cs ih =>
    rintro k ⟨c₀, hc₀, hv⟩
    have hstep : runChunks g k (c :: cs) =
        (runChunk g k c).1 :: runChunks g (runChunk g k c).2 cs := rfl
    rcases List.mem_cons.mp hc₀ with rfl | hc₂
    · obtain ⟨e, k₂, hc⟩ := runChunk_error g c₀ k hv
      refine ⟨e, ?_⟩
      rw [hstep, hc]
      exact List.mem_cons_self _ _
    · obtain ⟨e, he⟩ := ih (runChunk g k c).2 ⟨c₀, hc₂, hv⟩
      exact ⟨e, by rw [hstep]; exact List.mem_cons_of_mem _ he⟩

/-- C2: a worker task raises exactly for the two sentinel inputs 13 and 42;
when the run raises, the error callback `galactic_error` fires with a
raised error, and in a run in which no task raises (in particular whenever
no submitted input is a sentinel) the callback is never invoked. -/
theorem task_error_callback_spec (g : Nat → ℚ) (chunksize : Nat) (inputs : List Nat) :
    (∀ v k, (∃ e, task g k v = Except.error e) ↔ (v = 13 ∨ v = 42)) ∧
    (raisedErrors g chunksize inputs = [] → errorCallbackCalls g chunksize inputs = []) ∧
    (raisedErrors g chunksize inputs ≠ [] →
      ∃ e ∈ raisedErrors g chunksize inputs,
        errorCallbackCalls g chunksize inputs = [galactic_error e]) ∧
    ((∀ v ∈ inputs, v ≠ 13 ∧ v ≠ 42) → errorCallbackCalls g chunksize inputs = []) := by
  refine ⟨fun v k => task_error_iff g k v, ?_, ?_, ?_⟩
  · intro h
    simp [errorCallbackCalls, h]
  · intro h
    cases hre : raisedErrors g chunksize inputs with
    | nil => exact absurd hre h
    | cons e es => exact ⟨e, by simp [hre], by simp [errorCallbackCalls, hre]⟩
  · intro hno
    have hcs : ∀ c ∈ chunkList chunksize inputs, ∀ v ∈ c, ¬(v = 42 ∨ v = 13) := by
      intro c hc v hv
      have hvin : v ∈ inputs := chunkGo_subset chunksize inputs.length inputs c hc v hv
      have := hno v hvin
      tauto
    have hok := runChunks_all_ok g (chunkList chunksize inputs) 0 hcs
    have hnil : raisedErrors g chunksize inputs = [] := by
      rw [raisedErrors, map_async, List.filterMap_eq_nil_iff]
      intro r hr
      obtain ⟨os, rfl⟩ := hok r hr
      rfl
    simp [errorCallbackCalls, hnil]

/-- Witness for C2: a sentinel-free run invokes the callback never. -/
theorem task_error_callback_spec_witness :
    errorCallbackCalls constRandom 16 [1, 2, 3] = [] :=
  (task_error_callback_spec constRandom 16 [1, 2, 3]).2.2.2 (by decide)

/-- C6: for a non-sentinel input, `task` draws exactly one random value
(the counter advances by one), prints the per-task tuple
`(value, random_value)` once, and returns `None` — the tuple is not
returned to the caller. -/
theorem task_single_random_tuple (g : Nat → ℚ) (k value : Nat)
    (h13 : value ≠ 13) (h42 : value ≠ 42) :
    task g k value = Except.ok (⟨[(value, g k)], none⟩, k + 1) := by
  have hcond : ¬(value = 42 ∨ value = 13) := by tauto
  simp [task, hcond]

/-- Witness for C6 at input 5 with the constant random stream. -/
theorem task_single_random_tuple_witness :
    (5 : Nat) ≠ 13 ∧ (5 : Nat) ≠ 42 ∧
    task constRandom 0 5 = Except.ok (⟨[(5, constRandom 0)], none⟩, 0 + 1) :=
  ⟨by decide, by decide, task_single_random_tuple constRandom 0 5 (by decide) (by decide)⟩

/-- C9: the error branch of the asynchronous example is reachable: both
sentinels 13 and 42 lie in `range(60)`, and with chunk size 16 the run
raises, so the error callback fires at least once, whatever the random
stream. -/
theorem async_error_branch_reachable (g : Nat → ℚ) :
    13 ∈ List.range 60 ∧ 42 ∈ List.range 60 ∧
    errorCallbackCalls g 16 (List.range 60) ≠ [] := by
  refine ⟨by decide, by decide, ?_⟩
  have hex : ∃ c ∈ chunkList 16 (List.range 60), ∃ v ∈ c, v = 42 ∨ v = 13 := by decide
  obtain ⟨e, he⟩ := runChunks_has_error g (chunkList 16 (List.range 60)) 0 hex
  have hmem : e ∈ raisedErrors g 16 (List.range 60) := by
    rw [raisedErrors, map_async]
    exact List.mem_filterMap.mpr ⟨Except.error e, he, rfl⟩
  have hne := List.ne_nil_of_mem hmem
  cases hre : raisedErrors g 16 (List.range 60) with
  | nil => exact absurd hre hne
  | cons x xs => simp [errorCallbackCalls, hre]

/-- C5: every retrieval request the notebook can submit follows the fixed
schema: the date field is `firstdate/to/lastdate`, the parameter code is
the one looked up for the chosen variable in `vars`, and the output format
is `netcdf`. -/
theorem retrieve_request_schema (thisvar firstdate lastdate : String) (code : Nat)
    (h : varsLookup thisvar = some code) :
    ∃ call, makeRetrieveCall thisvar firstdate lastdate = some call ∧
      call.dataset = "reanalysis-era5-complete" ∧
      reqField call.request "date" = some (firstdate ++ "/to/" ++ lastdate) ∧
      reqField call.request "param" = some (toString code) ∧
      reqField call.request "format" = some "netcdf" := by
  rw [makeRetrieveCall, h]
  exact ⟨_, rfl, rfl, rfl, rfl, rfl⟩

/-- Witness for C5 at the notebook's own instantiation
(`thisvar = 'temperature'`, January 2023). -/
theorem retrieve_request_schema_witness :
    varsLookup "temperature" = some 130 ∧
    (∃ call, makeRetrieveCall "temperature" "2023-01-01" "2023-01-31" = some call ∧
      call.dataset = "reanalysis-era5-complete" ∧
      reqField call.request "date" = some ("2023-01-01" ++ "/to/" ++ "2023-01-31") ∧
      reqField call.request "param" = some (toString 130) ∧
      reqField call.request "format" = some "netcdf") :=
  ⟨rfl, retrieve_request_schema "temperature" "2023-01-01" "2023-01-31" 130 rfl⟩

/-- C10: the `vars` mapping is not injective: the three distinct variables
`'specific humidity'`, `'surface pressure'` and `'10-m wind speed'` all
carry parameter code 111, so retrieval requests for any of them carry the
same `param` field `"111"`, whatever the date range. -/
theorem vars_not_injective :
    varsLookup "specific humidity" = some 111 ∧
    varsLookup "surface pressure" = some 111 ∧
    varsLookup "10-m wind speed" = some 111 ∧
    ("specific humidity" : String) ≠ "surface pressure" ∧
    ("specific humidity" : String) ≠ "10-m wind speed" ∧
    ("surface pressure" : String) ≠ "10-m wind speed" ∧
    ∀ firstdate lastdate : String,
      (makeRetrieveCall "specific humidity" firstdate lastdate).bind
          (fun call => reqField call.request "param") = some "111" ∧
      (makeRetrieveCall "surface pressure" firstdate lastdate).bind
          (fun call => reqField call.request "param") = some "111" ∧
      (makeRetrieveCall "10-m wind speed" firstdate lastdate).bind
          (fun call => reqField call.request "param") = some "111" := by
  exact ⟨rfl, rfl, rfl, by decide, by decide, by decide,
    fun firstdate lastdate => ⟨rfl, rfl, rfl⟩⟩

end ESDP2
